import Mathlib

/-!
Verification of the veturilo bike-sharing pipeline.

This file gives a shallow embedding, in Lean 4, of the rental-inference
pipeline of `veturilo_helper.py` and of the archive extraction driver of
`veturilo_extractor.py`, and proves properties of the embedded functions.

Modelling conventions:

* Timestamps are natural numbers counting seconds; `floor("H")` becomes
  division/multiplication by 3600.
* A `bike_numbers` cell of a pandas dataframe is either a list of raw
  tokens (each token is `some n` when the string token is numeric and
  `none` when it is garbage that `pd.to_numeric(errors="coerce")` turns
  into NaN), or a scalar virtual identifier written into the cell by
  `_bike_station_pairs_virtual`.
* pandas `explode` of an empty list yields a single NaN entry; this is
  modelled explicitly in `explodeNum`.
* `sort_values` is modelled with `List.insertionSort` on the same sort
  key; this fixes an order on rows whose keys tie (the real quicksort is
  unstable on ties; no claim below depends on tie order).
* `groupby(...)` with the default `sort=True` is modelled by collecting
  the distinct keys in order of first appearance and then sorting them.
* Python mutation of the dataframe passed by reference is modelled by
  explicit state passing: the mutating functions return the caller-visible
  frame next to their result.
-/

namespace Veturilo

namespace Helper

/-- Content of one `bike_numbers` dataframe cell.  `arr` is the list form
produced by `read_data` (tokens that survive `str.split(",")`; a token is
`some n` when numeric, `none` when it coerces to NaN); `virt` is the scalar
virtual identifier written by `_bike_station_pairs_virtual` into rows whose
list is empty. -/
inductive BikesVal where
  | arr (toks : List (Option Int))
  | virt (n : Int)
deriving DecidableEq

/-- One row of the monthly source dataframe, restricted to the columns the
rental pipeline reads: `uid` (station), `dt` (timestamp) and
`bike_numbers`. -/
structure Row where
  uid : Int
  dt : Nat
  bike_numbers : BikesVal
deriving DecidableEq

/-- The source dataframe together with the presence of the
`len_bikes_array` column that `_bike_station_pairs_virtual` adds in
place. -/
structure Frame where
  rows : List Row
  hasLenBikes : Bool
deriving DecidableEq

/-- One row of the exploded / padded bike-station pairs dataframe:
columns `dt`, `bike`, `uid`. -/
structure PairRow where
  dt : Nat
  bike : Int
  uid : Int
deriving DecidableEq

/-- One row of the output of `prepare_hourly_rentals`: columns `dt`
(hour-floored), `uid`, `rent_count`. -/
structure HourRow where
  dt : Nat
  uid : Int
  rent_count : Nat
deriving DecidableEq

/-- Distinct values of a list in order of first appearance; this is the
behaviour of pandas `Series.unique()` and of the key collection done by
`groupby`. -/
def uniqFirst {α : Type} [DecidableEq α] (l : List α) : List α :=
  l.foldl (fun acc x => if x ∈ acc then acc else acc ++ [x]) []

/-- Python `len()` of a `bike_numbers` cell (the pipeline only ever applies
it to the list form). -/
def lenB : BikesVal → Nat
  | .arr toks => toks.length
  | .virt _ => 1

/-- Lines 108-111 of `veturilo_helper.py`: add the `len_bikes_array` column
and overwrite the `bike_numbers` cell of every row whose list is empty with
`-1 * row_index` (the dataframe carries the default RangeIndex, so the
index label of a row is its position).  `i` is the index of the first row
of the remaining list. -/
def addVirtuals : Nat → List Row → List Row
  | _, [] => []
  | i, r :: rs =>
    (if lenB r.bike_numbers = 0 then { r with bike_numbers := .virt (-(i : Int)) } else r)
      :: addVirtuals (i + 1) rs

/-- Composition of pandas `explode` on the `bike_numbers` cell with
`pd.to_numeric(..., errors="coerce")`: a non-empty list explodes to its
tokens, an empty list explodes to a single NaN entry, a scalar stays as a
single entry. -/
def explodeNum : BikesVal → List (Option Int)
  | .arr [] => [none]
  | .arr toks => toks
  | .virt n => [some n]

/-- Lines 113-121 of `veturilo_helper.py`: explode `bike_numbers` into the
`bike` column, coerce to numeric and drop the null entries. -/
def presenceOf (rows : List Row) : List PairRow :=
  rows.flatMap fun r =>
    (explodeNum r.bike_numbers).filterMap fun ob =>
      ob.map fun b => { dt := r.dt, bike := b, uid := r.uid }

/-- Distinct observation timestamps of the pairs dataframe
(`pairs_df["dt"].unique()`). -/
def dtsOf (pairs : List PairRow) : List Nat :=
  uniqFirst (pairs.map (·.dt))

/-- Distinct strictly positive bike identifiers of the pairs dataframe
(`pairs_df.loc[pairs_df["bike"] > 0, "bike"].unique()`). -/
def posBikesOf (pairs : List PairRow) : List Int :=
  uniqFirst ((pairs.filter fun p => decide (0 < p.bike)).map (·.bike))

/-- Lines 123-128: `itertools.product` of the distinct timestamps and the
distinct positive bike identifiers. -/
def padOf (pairs : List PairRow) : List (Nat × Int) :=
  (dtsOf pairs).flatMap fun t => (posBikesOf pairs).map fun b => (t, b)

/-- Rows of the pairs dataframe carrying a given `(dt, bike)` merge key. -/
def matchesKey (pairs : List PairRow) (k : Nat × Int) : List PairRow :=
  pairs.filter fun r => decide (r.dt = k.1) && decide (r.bike = k.2)

/-- Lines 129-130: `pad_df.merge(pairs_df, on=["dt","bike"], how="outer")`
followed by `uid.fillna(-1)`.  Pad keys matched by actual rows produce one
merged row per match; unmatched pad keys produce a row whose `uid` was NaN
and is filled with the `-1` sentinel; actual rows whose key is not in the
pad (the virtual, non-positive bike identifiers) are appended, as an outer
merge keeps right-only rows. -/
def outerMerge (pad : List (Nat × Int)) (pairs : List PairRow) : List PairRow :=
  (pad.flatMap fun k =>
    match matchesKey pairs k with
    | [] => [{ dt := k.1, bike := k.2, uid := -1 }]
    | ms => ms) ++
  pairs.filter fun r => decide ((r.dt, r.bike) ∉ pad)

/-- Sort key of `sort_values(["bike", "dt"])`. -/
def pairLe (a b : PairRow) : Prop :=
  a.bike < b.bike ∨ (a.bike = b.bike ∧ a.dt ≤ b.dt)

instance : DecidableRel pairLe := fun a b => by
  unfold pairLe; infer_instance

/-- Model of `pairs_df.sort_values(["bike", "dt"])`. -/
def sortPairs (l : List PairRow) : List PairRow :=
  List.insertionSort pairLe l

/-- The exploded presence records of a frame after the virtual-identifier
mutation; input of the padding/merge step. -/
def presencePairs (f : Frame) : List PairRow :=
  presenceOf (addVirtuals 0 f.rows)

/-- Lines 97-132 of `veturilo_helper.py` (`_bike_station_pairs_virtual`):
the first component is the caller-visible dataframe after the in-place
mutation of lines 108-111, the second is the returned pairs dataframe. -/
def _bike_station_pairs_virtual (f : Frame) : Frame × List PairRow :=
  ({ rows := addVirtuals 0 f.rows, hasLenBikes := true },
   sortPairs (outerMerge (padOf (presencePairs f)) (presencePairs f)))

/-- Rental condition of lines 154-158: the current `uid` differs from the
shifted `next_uid`, the shifted value is not null, and the current `uid`
is not the `-1` sentinel. -/
def rentalFlag (uid : Int) (next : Option Int) : Bool :=
  match next with
  | none => false
  | some nu => decide (uid ≠ nu) && decide (uid ≠ -1)

/-- Lines 153-158: `groupby("bike")["uid"].shift(-1)` followed by the
rental condition.  The shifted value of a row is the `uid` of the next
later row carrying the same bike identifier, if any. -/
def addFlags : List PairRow → List (PairRow × Bool)
  | [] => []
  | r :: rest =>
    (r, rentalFlag r.uid ((rest.find? fun s => decide (s.bike = r.bike)).map (·.uid)))
      :: addFlags rest

/-- Model of `dt.floor("H")` on a timestamp counted in seconds. -/
def floorH (t : Nat) : Nat := t / 3600 * 3600

/-- Group keys `(hour-floored dt, uid)` of the flagged rows, paired with
the flag. -/
def keyedOf (flagged : List (PairRow × Bool)) : List ((Nat × Int) × Bool) :=
  flagged.map fun pb => ((floorH pb.1.dt, pb.1.uid), pb.2)

/-- Ascending order on the `(dt, uid)` group keys, as produced by
`groupby(["dt","uid"])` with its default `sort=True`. -/
def keyLe (a b : Nat × Int) : Prop :=
  a.1 < b.1 ∨ (a.1 = b.1 ∧ a.2 ≤ b.2)

instance : DecidableRel keyLe := fun a b => by
  unfold keyLe; infer_instance

/-- Sorted list of the distinct group keys of the flagged rows. -/
def hourKeys (keyed : List ((Nat × Int) × Bool)) : List (Nat × Int) :=
  List.insertionSort keyLe (uniqFirst (keyed.map (·.1)))

/-- Sum of the 0/1 rental column over one group: the number of rows of the
group whose flag is set. -/
def groupSum (keyed : List ((Nat × Int) × Bool)) (k : Nat × Int) : Nat :=
  (keyed.filter fun e => decide (e.1 = k)).countP (·.2)

/-- The output row of one `(dt, uid)` group. -/
def hourRowOf (keyed : List ((Nat × Int) × Bool)) (k : Nat × Int) : HourRow :=
  { dt := k.1, uid := k.2, rent_count := groupSum keyed k }

/-- Lines 152-165 of `veturilo_helper.py` applied to an already-built pairs
dataframe: sort, shift, flag, floor the timestamps, group by
`(dt, uid)` and sum the flags. -/
def rentalStage (l : List PairRow) : List HourRow :=
  (hourKeys (keyedOf (addFlags l))).map (hourRowOf (keyedOf (addFlags l)))

/-- Lines 135-165 of `veturilo_helper.py` (`prepare_hourly_rentals`).
Line 149 compares the already-numeric `bike` column with the string `"?"`
and filters nulls: both conditions hold of every row of the merged frame,
so the filter is the identity here; line 150 `astype(float)` is the
identity in the integer model.  The first component is the caller-visible
input dataframe after the call. -/
def prepare_hourly_rentals (f : Frame) : Frame × List HourRow :=
  let fp := _bike_station_pairs_virtual f
  (fp.1, rentalStage (sortPairs fp.2))

/-- The `rent_count` recorded by an hourly table for a given hour and
station; absent rows read as zero. -/
def rentCountAt (t : List HourRow) (d : Nat) (u : Int) : Nat :=
  match t.find? fun h => decide (h.dt = d) && decide (h.uid = u) with
  | some h => h.rent_count
  | none => 0

/-- Virtual identifiers present in a list of rows: the scalar `bike_numbers`
cells. -/
def virtIdsOf (rows : List Row) : List Int :=
  rows.filterMap fun r =>
    match r.bike_numbers with
    | .virt n => some n
    | .arr _ => none

/-- Virtual identifiers synthesized by the mutation step of
`_bike_station_pairs_virtual` on a given input frame. -/
def virtualIds (f : Frame) : List Int :=
  virtIdsOf (addVirtuals 0 f.rows)

/-- Indices (starting at `i`) of the rows whose `bike_numbers` cell has
length zero. -/
def emptyIdx : Nat → List Row → List Nat
  | _, [] => []
  | i, r :: rs =>
    if lenB r.bike_numbers = 0 then i :: emptyIdx (i + 1) rs else emptyIdx (i + 1) rs

/-- The cell is in list form. -/
def isArrCell : BikesVal → Bool
  | .arr _ => true
  | .virt _ => false

/-- The cell is an empty list. -/
def isEmptyArr : BikesVal → Bool
  | .arr [] => true
  | _ => false

/-! Concrete inputs used by witnesses and counterexamples.  Timestamps
36000 and 36600 are ten minutes apart inside the same hour bucket. -/

/-- Input for the C2 counterexample: bike 7 docked at station 100 at the
first instant and absent from every station at the second (station 100
reports an empty rack list, so the bike is at no station). -/
def exC2frame : Frame :=
  { rows := [ { uid := 100, dt := 36000, bike_numbers := .arr [some 7] },
              { uid := 100, dt := 36600, bike_numbers := .arr [] } ],
    hasLenBikes := false }

/-- Input for the C3 counterexample, the end-to-end scenario of the spec:
station 100 holds bike 7 then reports empty; station 200 reports empty
then holds bike 7. -/
def exC3frame : Frame :=
  { rows := [ { uid := 100, dt := 36000, bike_numbers := .arr [some 7] },
              { uid := 200, dt := 36000, bike_numbers := .arr [] },
              { uid := 100, dt := 36600, bike_numbers := .arr [] },
              { uid := 200, dt := 36600, bike_numbers := .arr [some 7] } ],
    hasLenBikes := false }

/-- Input for the C4 counterexample: one snapshot, station 100 holding
bike 7 and station 200 empty. -/
def exC4frame : Frame :=
  { rows := [ { uid := 100, dt := 36000, bike_numbers := .arr [some 7] },
              { uid := 200, dt := 36000, bike_numbers := .arr [] } ],
    hasLenBikes := false }

/-- Input for the C5 counterexample: the station with the empty rack list
sits at row position 0, so the synthesized identifier is `-0 = 0`. -/
def exC5frame : Frame :=
  { rows := [ { uid := 100, dt := 36000, bike_numbers := .arr [] } ],
    hasLenBikes := false }

/-- Input for the C5 witness: an empty station at row position 1. -/
def exC5wframe : Frame :=
  { rows := [ { uid := 100, dt := 36000, bike_numbers := .arr [some 7] },
              { uid := 200, dt := 36000, bike_numbers := .arr [] } ],
    hasLenBikes := false }

/-- Input for the C10 witness: a single station row with an empty bike
list. -/
def exC10frame : Frame :=
  { rows := [ { uid := 300, dt := 7200, bike_numbers := .arr [] } ],
    hasLenBikes := false }

/-- The virtual identifier synthesized for the row at position `j`. -/
def negIdx (j : Nat) : Int := -(j : Int)

end Helper

namespace Extractor

/-!
Shallow embedding of `veturilo_extractor.py`.

The HTML/JSON text layer is abstracted into the shape of the input: a raw
snapshot either contains the `NEXTBIKE_PLACES_DB` pattern (so the regex of
`extract_json` finds a payload) or it does not (so the `[0]` indexing of
`findall`'s empty result raises `IndexError`); a payload either is valid
JSON holding a list of named regions, each with an already-tabulated
`places` dataframe, or is invalid (so `json.loads` raises).  Raised
exceptions are modelled with `Except String`.

Python `set` iteration order is unspecified and varies between processes
(string hashing is seeded per process); the pipeline is therefore
parameterized by an order oracle `ord : List String → List String` applied
to the canonical intersection list inside `normalize_column_list`; a
legitimate oracle returns a permutation of its input.
-/

/-- An untyped dataframe: a column list plus one association list
(column name to cell text) per row. -/
structure PFrame where
  cols : List String
  rows : List (List (String × String))
deriving DecidableEq

/-- Parsed body of a snapshot payload: invalid JSON, or a list of regions,
each carrying its `region_info.name` and its `places` table (the
`pd.DataFrame.from_dict(data["places"])` result). -/
inductive JsonStr where
  | invalid (msg : String)
  | valid (regions : List (String × PFrame))
deriving DecidableEq

/-- A raw snapshot inside an archive: either the `NEXTBIKE_PLACES_DB`
pattern is absent, or it is present with the given payload. -/
inductive RawContent where
  | noDb
  | db (payload : JsonStr)
deriving DecidableEq

/-- Lines 39-59 of `veturilo_extractor.py` (`extract_timestamp`): rebuild
a timestamp string from the fixed character positions of the inner file
name (Python string slicing never raises; the `except` branch is dead). -/
def extract_timestamp (s : String) : String :=
  let cs := s.toList
  let slice := fun (a b : Nat) => String.mk ((cs.drop a).take (b - a))
  slice 0 4 ++ "-" ++ slice 4 6 ++ "-" ++ slice 6 8 ++ " " ++
    slice 9 11 ++ ":" ++ slice 11 13 ++ ":" ++ slice 13 15

/-- Lines 102-112 (`extract_json`): the regex findall followed by `[0]`;
an absent pattern raises `IndexError`. -/
def extract_json : RawContent → Except String JsonStr
  | .noDb => .error "IndexError: list index out of range"
  | .db payload => .ok payload

/-- Lines 202-216 (`process_json`): parse the JSON, keep the regions whose
`region_info.name` is the selected one, index `[0]`, and tabulate its
`places`. -/
def process_json (j : JsonStr) (regionName : String := "VETURILO Poland") :
    Except String PFrame :=
  match j with
  | .invalid msg => .error msg
  | .valid regions =>
    match regions.filter fun r => decide (r.1 = regionName) with
    | [] => .error "IndexError: list index out of range"
    | r :: _ => .ok r.2

/-- The columns collected throughout the whole data gathering process
(default of `normalize_column_list`). -/
def expected_cols : List String :=
  ["uid", "lat", "lng", "name", "number", "bikes", "bike_racks",
   "free_racks", "place_type", "bike_numbers"]

/-- Cell of a row under a column name (always found for the columns the
pipeline selects). -/
def cellOf (row : List (String × String)) (c : String) : String :=
  match row.find? fun e => decide (e.1 = c) with
  | some e => e.2
  | none => "NaN"

/-- Lines 171-199 (`normalize_column_list`): select the intersection of
the dataframe's columns with the expected columns.  The source computes
`set(df.columns).intersection(set(expected_cols))` and indexes the
dataframe with that set, so the order of the selected columns is the
iteration order of a Python string set, modelled by the oracle `ord`
applied to the canonical intersection list. -/
def normalize_column_list (ord : List String → List String) (df : PFrame)
    (expected : List String := expected_cols) : PFrame :=
  if expected.length = 0 then df
  else
    let existing := ord (expected.filter fun c => decide (c ∈ df.cols))
    { cols := existing,
      rows := df.rows.map fun row => existing.map fun c => (c, cellOf row c) }

/-- The canonical intersection list handed to the order oracle: the
expected columns that are present in the dataframe. -/
def interCols (df : PFrame) : List String :=
  expected_cols.filter fun c => decide (c ∈ df.cols)

/-- Line 143 (`df["dt"] = dt`): append the timestamp column. -/
def addDtCol (dt : String) (df : PFrame) : PFrame :=
  { cols := df.cols ++ ["dt"],
    rows := df.rows.map fun row => row ++ [("dt", dt)] }

/-- Result of `inner_file_wrapper` for one snapshot: the success flag, the
inner file name, the failure stage and message, and the dataframe (the
source uses positional tuples; the failure rows keep `(fname, stage,
error)`). -/
inductive InnerResult where
  | failure (fname stage error : String)
  | success (fname : String) (df : PFrame)
deriving DecidableEq

/-- The snapshot was processed successfully. -/
def InnerResult.isSuccess : InnerResult → Bool
  | .success _ _ => true
  | .failure _ _ _ => false

/-- Lines 115-144 (`inner_file_wrapper`): extract the timestamp, extract
the JSON (an error is caught and returned as a failure tuple with stage
`"extract_json"`), convert it (stage `"process_json"`), then normalize the
columns and append the `dt` column. -/
def inner_file_wrapper (ord : List String → List String)
    (innerFname : String) (content : RawContent) : InnerResult :=
  let dt := extract_timestamp innerFname
  match extract_json content with
  | .error err => .failure innerFname "extract_json" err
  | .ok js =>
    match process_json js with
    | .error err => .failure innerFname "process_json" err
    | .ok df => .success innerFname (addDtCol dt (normalize_column_list ord df))

/-- The log row recorded for a failed snapshot. -/
def logRowOf (fname stage error : String) : List (String × String) :=
  [("fname", fname), ("stage", stage), ("error", error)]

/-- Log rows of a result list (`[tpl[1:4] for tpl in dfs_list if not tpl[0]]`). -/
def logRowsOf (results : List InnerResult) : List (List (String × String)) :=
  results.filterMap fun r =>
    match r with
    | .failure f s e => some (logRowOf f s e)
    | .success _ _ => none

/-- Successful dataframes of a result list
(`[tpl[4] for tpl in dfs_list if tpl[0]]`). -/
def successDfs (results : List InnerResult) : List PFrame :=
  results.filterMap fun r =>
    match r with
    | .failure _ _ _ => none
    | .success _ df => some df

/-- Add the columns of one frame to an accumulated column list, keeping
first-appearance order. -/
def addCols (acc : List String) (cs : List String) : List String :=
  cs.foldl (fun a c => if c ∈ a then a else a ++ [c]) acc

/-- Column union of a frame list, as produced by `pd.concat`. -/
def colsUnion (dfs : List PFrame) : List String :=
  dfs.foldl (fun a d => addCols a d.cols) []

/-- Model of `pd.concat`: raises `ValueError` on an empty list, otherwise
unions the columns and concatenates the rows. -/
def concatFrames (dfs : List PFrame) : Except String PFrame :=
  match dfs with
  | [] => .error "ValueError: No objects to concatenate"
  | _ :: _ => .ok { cols := colsUnion dfs, rows := dfs.flatMap (·.rows) }

/-- Lines 147-168 (`process_zip`): run `inner_file_wrapper` over every
inner file, build the processing log with the fixed columns
`["fname", "stage", "error"]`, and concatenate the successful dataframes
(`pd.concat` raises when every snapshot of the archive failed). -/
def process_zip (ord : List String → List String)
    (files : List (String × RawContent)) : Except String (PFrame × PFrame) :=
  match concatFrames (successDfs (files.map fun fc => inner_file_wrapper ord fc.1 fc.2)) with
  | .error e => .error e
  | .ok data =>
    .ok (data,
      { cols := ["fname", "stage", "error"],
        rows := logRowsOf (files.map fun fc => inner_file_wrapper ord fc.1 fc.2) })

/-- One archive: the listed inner files with their contents. -/
abbrev ZipArchive : Type := List (String × RawContent)

/-- The joblib `Parallel` map of line 90: results are returned in input
order; an exception raised by a worker propagates to the caller. -/
def runZips (ord : List String → List String) :
    List ZipArchive → Except String (List (PFrame × PFrame))
  | [] => .ok []
  | a :: as_ =>
    match process_zip ord a with
    | .error e => .error e
    | .ok z =>
      match runZips ord as_ with
      | .error e => .error e
      | .ok zs => .ok (z :: zs)

/-- Lines 74-99 (`process_month`): process every archive of the month,
concatenate the data frames and the log frames (`df[1] is not None` never
filters anything: `process_zip` always returns a log frame), and write
both tables.  The returned pair is the `(data, log)` content written to
the output files. -/
def process_month (ord : List String → List String)
    (archives : List ZipArchive) : Except String (PFrame × PFrame) :=
  match runZips ord archives with
  | .error e => .error e
  | .ok zs =>
    match concatFrames (zs.map (·.1)) with
    | .error e => .error e
    | .ok data =>
      match concatFrames (zs.map (·.2)) with
      | .error e => .error e
      | .ok log => .ok (data, log)

/-- Log rows of a finished `process_zip` call. -/
def zipLogRows (r : Except String (PFrame × PFrame)) : List (List (String × String)) :=
  match r with
  | .ok (_, log) => log.rows
  | .error _ => []

/-- Data rows of a finished `process_zip` call. -/
def zipDataRows (r : Except String (PFrame × PFrame)) : List (List (String × String)) :=
  match r with
  | .ok (data, _) => data.rows
  | .error _ => []

/-- Columns of the data table of a finished `process_month` call. -/
def monthDataCols (r : Except String (PFrame × PFrame)) : List String :=
  match r with
  | .ok (data, _) => data.cols
  | .error _ => []

/-- Columns of the log table of a finished `process_month` call. -/
def monthLogCols (r : Except String (PFrame × PFrame)) : List String :=
  match r with
  | .ok (_, log) => log.cols
  | .error _ => []

/-- Rows of the log table of a finished `process_month` call. -/
def monthLogRows (r : Except String (PFrame × PFrame)) : List (List (String × String)) :=
  match r with
  | .ok (_, log) => log.rows
  | .error _ => []

/-- One legitimate set-iteration order: the canonical order itself. -/
def idOrd (l : List String) : List String := l

/-- Another legitimate set-iteration order: the reversed order (Python
set iteration order for strings varies with the per-process hash seed). -/
def revOrd (l : List String) : List String := l.reverse

/-- Rows lists of equal length whose corresponding rows hold the same
cells up to order. -/
def RowsPerm (r1 r2 : List (List (String × String))) : Prop :=
  List.Forall₂ (fun a b => a.Perm b) r1 r2

/-- Frames holding the same table up to column order. -/
def FrameRel (d1 d2 : PFrame) : Prop :=
  d1.cols.Perm d2.cols ∧ RowsPerm d1.rows d2.rows

/-- Two `Except` results related componentwise: same error, or successes
related by `R`. -/
def ExcRel {α β : Type} (R : α → β → Prop) :
    Except String α → Except String β → Prop
  | .ok a, .ok b => R a b
  | .error e1, .error e2 => e1 = e2
  | _, _ => False

/-- Two `(data, log)` pairs with identical logs and data frames holding
the same table up to column order. -/
def PairRel (z1 z2 : PFrame × PFrame) : Prop :=
  z1.2 = z2.2 ∧ FrameRel z1.1 z2.1

/-- Results of two runs of `process_month` that agree up to column order:
both fail with the same error, or both succeed with identical logs and
with data frames holding the same table up to column order. -/
def MonthRel (r1 r2 : Except String (PFrame × PFrame)) : Prop :=
  ExcRel PairRel r1 r2

/-- The run finished without raising. -/
def okE (r : Except String (PFrame × PFrame)) : Bool :=
  match r with
  | .ok _ => true
  | .error _ => false

/-- Places table of the snapshot used by the extractor examples: one
station row with two of the expected columns. -/
def exGoodPlaces : PFrame :=
  { cols := ["uid", "bikes"], rows := [[("uid", "100"), ("bikes", "3")]] }

/-- A raw snapshot that extracts and converts successfully. -/
def exGoodContent : RawContent :=
  .db (.valid [("VETURILO Poland", exGoodPlaces)])

/-- Archive with one failing snapshot (pattern absent) and one good one. -/
def exC6files : List (String × RawContent) :=
  [("20190822_101010.html", .noDb), ("20190822_102010.html", exGoodContent)]

/-- An archive whose only snapshot fails to extract: every snapshot of the
archive fails. -/
def exC6badArch : ZipArchive := [("20190822_101010.html", .noDb)]

/-- A month holding the all-failure archive next to a healthy sibling
archive. -/
def exC6month : List ZipArchive :=
  [exC6badArch, [("20190822_102010.html", exGoodContent)]]

/-- A month of one archive holding one good snapshot; zero errors. -/
def exC7arch : List ZipArchive :=
  [[("20190822_102010.html", exGoodContent)]]

/-- A month of one archive holding one good snapshot, used to compare two
set-iteration orders. -/
def exC8arch : List ZipArchive :=
  [[("20190822_102010.html", exGoodContent)]]


/-- Two per-snapshot results related as two runs with permuted column
orders produce them: equal failures, or successes with the same name and
frames equal up to column order. -/
def InnerRel : InnerResult → InnerResult → Prop
  | .failure a b c, .failure a' b' c' => a = a' ∧ b = b' ∧ c = c'
  | .success n d, .success n' d' => n = n' ∧ FrameRel d d'
  | _, _ => False


end Extractor

namespace Avail

/-!
Shallow embedding of `get_hourly_available_bikes`
(lines 188-211 of `veturilo_helper.py`), recompute path.
-/

/-- One row of a monthly dataframe as read for the availability
aggregation: station, timestamp, and the numeric bikes and racks
fields. -/
structure ARow where
  uid : Int
  dt : Nat
  bikes : Int
  bike_racks : Int
deriving DecidableEq

/-- Lines 200-205: floor the timestamps and run
`groupby(["uid", "dt"]).agg(...)` with the aggregation
`"bikes": lambda x: round(np.mean(x), 0)`.  The module never imports
numpy, so the first time the lambda runs (it runs once per group, hence as
soon as the month has at least one row) the call raises
`NameError: name np is not defined`.  An empty frame produces no group
and an empty aggregate. -/
def hourlyAgg (rows : List ARow) : Except String (List ARow) :=
  if rows.isEmpty then .ok []
  else .error "NameError: name np is not defined"

/-- The aggregation loop over the monthly files (lines 197-206). -/
def aggAll : List (List ARow) → Except String (List (List ARow))
  | [] => .ok []
  | f :: fs =>
    match hourlyAgg f with
    | .error e => .error e
    | .ok t =>
      match aggAll fs with
      | .error e => .error e
      | .ok ts => .ok (t :: ts)

/-- Lines 195-209 (`get_hourly_available_bikes`, recompute path): even
when every monthly aggregation avoids the NameError (which needs every
frame to be empty), line 207 calls `pd.cponcat`, which is not an attribute
of pandas, so the attribute lookup raises
`AttributeError: module pandas has no attribute cponcat`.  The recompute
path can never return a table. -/
def get_hourly_available_bikes (files : List (List ARow)) :
    Except String (List (List ARow)) :=
  match aggAll files with
  | .error e => .error e
  | .ok _ => .error "AttributeError: module pandas has no attribute cponcat"

end Avail

namespace Helper

/-! Generic lemmas about the auxiliary list operations. -/

theorem mem_foldl_uniq {α : Type} [DecidableEq α] (l acc : List α) (x : α) :
    x ∈ l.foldl (fun a y => if y ∈ a then a else a ++ [y]) acc ↔ x ∈ acc ∨ x ∈ l := by
  induction l generalizing acc with
  | nil => simp
  | cons y t ih =>
    simp only [List.foldl_cons, ih, List.mem_cons]
    by_cases hy : y ∈ acc
    · simp only [if_pos hy]
      constructor
      · rintro (h | h)
        · exact Or.inl h
        · exact Or.inr (Or.inr h)
      · rintro (h | h | h)
        · exact Or.inl h
        · exact Or.inl (h ▸ hy)
        · exact Or.inr h
    · simp only [if_neg hy, List.mem_append, List.mem_singleton]
      tauto

theorem mem_uniqFirst {α : Type} [DecidableEq α] (l : List α) (x : α) :
    x ∈ uniqFirst l ↔ x ∈ l := by
  unfold uniqFirst
  rw [mem_foldl_uniq]
  simp

theorem nodup_foldl_uniq {α : Type} [DecidableEq α] (l : List α) (acc : List α)
    (h : acc.Nodup) :
    (l.foldl (fun a y => if y ∈ a then a else a ++ [y]) acc).Nodup := by
  induction l generalizing acc with
  | nil => exact h
  | cons y t ih =>
    simp only [List.foldl_cons]
    by_cases hy : y ∈ acc
    · rw [if_pos hy]; exact ih acc h
    · rw [if_neg hy]
      refine ih _ ?_
      simp [List.nodup_append, h, hy]

theorem nodup_uniqFirst {α : Type} [DecidableEq α] (l : List α) :
    (uniqFirst l).Nodup :=
  nodup_foldl_uniq l [] List.nodup_nil

theorem foldl_uniq_append {α : Type} [DecidableEq α] (l : List α) :
    ∀ acc : List α, l.Nodup → (∀ x ∈ l, x ∉ acc) →
      l.foldl (fun a y => if y ∈ a then a else a ++ [y]) acc = acc ++ l := by
  induction l with
  | nil => intro acc _ _; simp
  | cons y t ih =>
    intro acc hnd hdisj
    rw [List.foldl_cons, if_neg (hdisj y (List.mem_cons_self y t)),
      ih (acc ++ [y]) (List.nodup_cons.mp hnd).2 ?_, List.append_assoc]
    · simp
    · intro x hx hmem
      rcases List.mem_append.mp hmem with h1 | h2
      · exact hdisj x (List.mem_cons_of_mem y hx) h1
      · rw [List.mem_singleton] at h2
        exact (List.nodup_cons.mp hnd).1 (h2 ▸ hx)

theorem foldl_uniq_all_mem {α : Type} [DecidableEq α] (l : List α) :
    ∀ acc : List α, (∀ x ∈ l, x ∈ acc) →
      l.foldl (fun a y => if y ∈ a then a else a ++ [y]) acc = acc := by
  induction l with
  | nil => intro acc _; rfl
  | cons y t ih =>
    intro acc hall
    rw [List.foldl_cons, if_pos (hall y (List.mem_cons_self y t))]
    exact ih acc fun x hx => hall x (List.mem_cons_of_mem y hx)

theorem addFlags_map_fst (l : List PairRow) :
    (addFlags l).map Prod.fst = l := by
  induction l with
  | nil => rfl
  | cons r t ih => simp [addFlags, ih]

theorem addFlags_get? (l1 : List PairRow) (r : PairRow) (rest : List PairRow) :
    (addFlags (l1 ++ r :: rest)).get? l1.length =
      some (r, rentalFlag r.uid
        ((rest.find? fun s => decide (s.bike = r.bike)).map (·.uid))) := by
  induction l1 with
  | nil => rfl
  | cons a t ih => simpa [addFlags] using ih

theorem find?_hourRow {keys : List (Nat × Int)} {keyed : List ((Nat × Int) × Bool)}
    (k : Nat × Int) (hmem : k ∈ keys) (hnd : keys.Nodup) :
    (keys.map (hourRowOf keyed)).find?
      (fun h => decide (h.dt = k.1) && decide (h.uid = k.2)) =
      some (hourRowOf keyed k) := by
  induction keys with
  | nil => cases hmem
  | cons a t ih =>
    rcases List.mem_cons.mp hmem with h | h
    · subst h
      simp [List.find?, hourRowOf]
    · have hne : a ≠ k := by
        rintro rfl
        exact (List.nodup_cons.mp hnd).1 h
      have hpred : (decide ((hourRowOf keyed a).dt = k.1) &&
          decide ((hourRowOf keyed a).uid = k.2)) = false := by
        by_cases h1 : a.1 = k.1
        · by_cases h2 : a.2 = k.2
          · exact absurd (Prod.ext h1 h2) hne
          · simp [hourRowOf, h2]
        · simp [hourRowOf, h1]
      simp only [List.map_cons, List.find?]
      rw [hpred]
      exact ih h (List.nodup_cons.mp hnd).2

theorem rentCountAt_rentalStage {l : List PairRow} {p : PairRow}
    (hmem : (p, true) ∈ addFlags l) :
    1 ≤ rentCountAt (rentalStage l) (floorH p.dt) p.uid := by
  set keyed := keyedOf (addFlags l) with hk
  have hkey : ((floorH p.dt, p.uid), true) ∈ keyed := by
    rw [hk]
    exact List.mem_map.mpr ⟨(p, true), hmem, rfl⟩
  have hkeys : (floorH p.dt, p.uid) ∈ hourKeys keyed := by
    unfold hourKeys
    rw [List.mem_insertionSort, mem_uniqFirst]
    exact List.mem_map.mpr ⟨((floorH p.dt, p.uid), true), hkey, rfl⟩
  have hnd : (hourKeys keyed).Nodup := by
    unfold hourKeys
    exact ((List.perm_insertionSort _ _).nodup_iff).mpr (nodup_uniqFirst _)
  have hsum : 1 ≤ groupSum keyed (floorH p.dt, p.uid) := by
    unfold groupSum
    have : 0 < (keyed.filter fun e => decide (e.1 = (floorH p.dt, p.uid))).countP (·.2) := by
      rw [List.countP_pos_iff]
      refine ⟨((floorH p.dt, p.uid), true), ?_, rfl⟩
      exact List.mem_filter.mpr ⟨hkey, by simp⟩
    omega
  unfold rentalStage rentCountAt
  rw [← hk, find?_hourRow (floorH p.dt, p.uid) hkeys hnd]
  exact hsum

theorem mem_rentalStage (l : List PairRow) (d : Nat) (u : Int) :
    (∃ c, ({ dt := d, uid := u, rent_count := c } : HourRow) ∈ rentalStage l) ↔
      ∃ p ∈ l, floorH p.dt = d ∧ p.uid = u := by
  constructor
  · rintro ⟨c, hc⟩
    rcases List.mem_map.mp hc with ⟨k, hk, hrow⟩
    simp only [hourRowOf] at hrow
    injection hrow with hk1 hk2 hk3
    rw [hourKeys, List.mem_insertionSort, mem_uniqFirst] at hk
    rcases List.mem_map.mp hk with ⟨e, he, hek⟩
    rcases List.mem_map.mp he with ⟨pb, hpb, hpbe⟩
    refine ⟨pb.1, ?_, ?_, ?_⟩
    · rw [← addFlags_map_fst l]
      exact List.mem_map_of_mem Prod.fst hpb
    · have hfst : (floorH pb.1.dt, pb.1.uid).1 = k.1 := by rw [← hek, ← hpbe]
      rw [← hk1, ← hfst]
    · have hsnd : (floorH pb.1.dt, pb.1.uid).2 = k.2 := by rw [← hek, ← hpbe]
      rw [← hk2, ← hsnd]
  · rintro ⟨p, hp, hd, hu⟩
    rw [← addFlags_map_fst l] at hp
    rcases List.mem_map.mp hp with ⟨pb, hpb, hpbp⟩
    refine ⟨groupSum (keyedOf (addFlags l)) (d, u), ?_⟩
    show hourRowOf (keyedOf (addFlags l)) (d, u) ∈ rentalStage l
    unfold rentalStage
    apply List.mem_map_of_mem (hourRowOf (keyedOf (addFlags l)))
    rw [hourKeys, List.mem_insertionSort, mem_uniqFirst]
    refine List.mem_map.mpr ⟨((d, u), pb.2), ?_, rfl⟩
    refine List.mem_map.mpr ⟨pb, hpb, ?_⟩
    rw [hpbp, hd, hu]

theorem mem_of_get?_addFlags {l : List PairRow} {n : Nat} {e : PairRow × Bool}
    (h : (addFlags l).get? n = some e) : e ∈ addFlags l :=
  List.get?_mem h

theorem prepare_snd_eq (f : Frame) :
    (prepare_hourly_rentals f).2 =
      rentalStage (sortPairs (_bike_station_pairs_virtual f).2) := rfl

/-! Lemmas about the cardinality of the padded outer merge. -/

theorem flatMap_length_of_singletons {α β : Type} (l : List α) (g : α → List β)
    (h : ∀ a ∈ l, (g a).length = 1) : (l.flatMap g).length = l.length := by
  induction l with
  | nil => rfl
  | cons a t ih =>
    rw [List.flatMap_cons, List.length_append, h a (List.mem_cons_self a t),
      ih fun x hx => h x (List.mem_cons_of_mem a hx), List.length_cons]
    omega

theorem padOf_length (pairs : List PairRow) :
    (padOf pairs).length = (dtsOf pairs).length * (posBikesOf pairs).length := by
  unfold padOf
  induction dtsOf pairs with
  | nil => simp
  | cons t ts ih =>
    rw [List.flatMap_cons, List.length_append, List.length_map, ih,
      List.length_cons, Nat.succ_mul]
    omega

theorem mem_posBikesOf {pairs : List PairRow} {b : Int} (h : b ∈ posBikesOf pairs) :
    0 < b := by
  rw [posBikesOf, mem_uniqFirst] at h
  rcases List.mem_map.mp h with ⟨p, hp, hpb⟩
  have := (List.mem_filter.mp hp).2
  rw [← hpb]
  exact of_decide_eq_true this

theorem mem_padOf {pairs : List PairRow} {k : Nat × Int} :
    k ∈ padOf pairs ↔ k.1 ∈ dtsOf pairs ∧ k.2 ∈ posBikesOf pairs := by
  unfold padOf
  constructor
  · intro h
    rcases List.mem_flatMap.mp h with ⟨t, ht, hk⟩
    rcases List.mem_map.mp hk with ⟨b, hb, hbk⟩
    rw [← hbk]
    exact ⟨ht, hb⟩
  · rintro ⟨h1, h2⟩
    exact List.mem_flatMap.mpr ⟨k.1, h1, List.mem_map.mpr ⟨k.2, h2, by rw [Prod.mk.eta]⟩⟩

theorem pad_mem_iff_pos {pairs : List PairRow} {r : PairRow} (hr : r ∈ pairs) :
    (r.dt, r.bike) ∈ padOf pairs ↔ 0 < r.bike := by
  constructor
  · intro h
    exact mem_posBikesOf (mem_padOf.mp h).2
  · intro h
    refine mem_padOf.mpr ⟨?_, ?_⟩
    · rw [dtsOf, mem_uniqFirst]
      exact List.mem_map_of_mem (·.dt) hr
    · rw [posBikesOf, mem_uniqFirst]
      refine List.mem_map.mpr ⟨r, ?_, rfl⟩
      exact List.mem_filter.mpr ⟨hr, decide_eq_true h⟩

/-! Lemmas about the virtual-identifier synthesis. -/


theorem virtIdsOf_addVirtuals (rs : List Row) (i : Nat)
    (h : ∀ r ∈ rs, isArrCell r.bike_numbers = true) :
    virtIdsOf (addVirtuals i rs) = (emptyIdx i rs).map negIdx := by
  induction rs generalizing i with
  | nil => rfl
  | cons r t ih =>
    have hr : isArrCell r.bike_numbers = true := h r (List.mem_cons_self r t)
    have ht : ∀ x ∈ t, isArrCell x.bike_numbers = true :=
      fun x hx => h x (List.mem_cons_of_mem r hx)
    cases hcell : r.bike_numbers with
    | virt n => rw [hcell] at hr; simp [isArrCell] at hr
    | arr toks =>
      by_cases hlen : lenB r.bike_numbers = 0
      · have hstep : addVirtuals i (r :: t) =
            { r with bike_numbers := .virt (-(i : Int)) } :: addVirtuals (i + 1) t := by
          rw [addVirtuals, if_pos hlen]
        rw [hstep, emptyIdx, if_pos hlen, List.map_cons]
        show (-(i : Int)) :: virtIdsOf (addVirtuals (i + 1) t) = negIdx i :: _
        rw [ih (i + 1) ht]
        rfl
      · simp only [addVirtuals, emptyIdx, if_neg hlen]
        show virtIdsOf ({ uid := r.uid, dt := r.dt, bike_numbers := r.bike_numbers } :: addVirtuals (i+1) t) = _
        simp only [virtIdsOf, List.filterMap_cons, hcell]
        exact ih (i + 1) ht

theorem emptyIdx_length (rs : List Row) (i : Nat) :
    (emptyIdx i rs).length = (rs.filter fun r => decide (lenB r.bike_numbers = 0)).length := by
  induction rs generalizing i with
  | nil => rfl
  | cons r t ih =>
    by_cases hlen : lenB r.bike_numbers = 0
    · simp [emptyIdx, hlen, List.filter_cons, ih (i + 1)]
    · simp [emptyIdx, hlen, List.filter_cons, ih (i + 1)]

theorem emptyIdx_ge (rs : List Row) (i : Nat) :
    ∀ j ∈ emptyIdx i rs, i ≤ j := by
  induction rs generalizing i with
  | nil => intro j hj; cases hj
  | cons r t ih =>
    intro j hj
    by_cases hlen : lenB r.bike_numbers = 0
    · rw [emptyIdx, if_pos hlen] at hj
      rcases List.mem_cons.mp hj with h | h
      · omega
      · have := ih (i + 1) j h; omega
    · rw [emptyIdx, if_neg hlen] at hj
      have := ih (i + 1) j hj; omega

theorem emptyIdx_nodup (rs : List Row) (i : Nat) :
    (emptyIdx i rs).Nodup := by
  induction rs generalizing i with
  | nil => exact List.nodup_nil
  | cons r t ih =>
    by_cases hlen : lenB r.bike_numbers = 0
    · rw [emptyIdx, if_pos hlen]
      refine List.nodup_cons.mpr ⟨?_, ih (i + 1)⟩
      intro hmem
      have := emptyIdx_ge t (i + 1) i hmem
      omega
    · rw [emptyIdx, if_neg hlen]
      exact ih (i + 1)

theorem addVirtuals_get? (rs : List Row) (j i : Nat) :
    (addVirtuals j rs).get? i = (rs.get? i).map fun r =>
      if lenB r.bike_numbers = 0 then
        { r with bike_numbers := .virt (-((j + i : Nat) : Int)) } else r := by
  induction rs generalizing j i with
  | nil => rfl
  | cons r t ih =>
    cases i with
    | zero => simp [addVirtuals]
    | succ n =>
      simp only [addVirtuals, List.get?_cons_succ, ih (j + 1) n]
      have : j + 1 + n = j + (n + 1) := by omega
      rw [this]

/-! Claim theorems about the rental pipeline. -/

/-- C1: for every timeline handed to the rental stage in which a bike is
recorded at genuine station A and, at the next chronological observation of
that bike, at a different genuine station B (neither the `-1` sentinel),
`prepare_hourly_rentals` sets the rental flag `1` on the departure row and
the hour bucket of station A at the floored departure time counts it. -/
theorem c1_rental_between_genuine_stations
    (l1 l2 : List PairRow) (r s : PairRow)
    (hbike : r.bike = s.bike) (hA : r.uid ≠ -1) (_hB : s.uid ≠ -1) (hAB : s.uid ≠ r.uid) :
    (addFlags (l1 ++ r :: s :: l2)).get? l1.length = some (r, true) ∧
    1 ≤ rentCountAt (rentalStage (l1 ++ r :: s :: l2)) (floorH r.dt) r.uid := by
  have hfind : ((s :: l2).find? fun x => decide (x.bike = r.bike)) = some s := by
    rw [List.find?_cons_of_pos]
    exact decide_eq_true hbike.symm
  have hflag : rentalFlag r.uid (some s.uid) = true := by
    simp [rentalFlag, hA, Ne.symm hAB]
  have hget : (addFlags (l1 ++ r :: s :: l2)).get? l1.length = some (r, true) := by
    rw [addFlags_get? l1 r (s :: l2), hfind]
    simp [hflag]
  exact ⟨hget, rentCountAt_rentalStage (mem_of_get?_addFlags hget)⟩

/-- C1 witness: the two-row timeline of bike 7 moving from station 100 to
station 200. -/
theorem c1_witness :
    (addFlags [{ dt := 36000, bike := 7, uid := 100 },
               { dt := 36600, bike := 7, uid := 200 }]).get? 0 =
      some ({ dt := 36000, bike := 7, uid := 100 }, true) ∧
    1 ≤ rentCountAt
      (rentalStage [{ dt := 36000, bike := 7, uid := 100 },
                    { dt := 36600, bike := 7, uid := 200 }]) (floorH 36000) 100 :=
  c1_rental_between_genuine_stations [] [] { dt := 36000, bike := 7, uid := 100 }
    { dt := 36600, bike := 7, uid := 200 } rfl (by decide) (by decide) (by decide)

/-- C2 counterexample: on the concrete input where bike 7 sits at genuine
station 100 and the next record carries the `-1` sentinel, the rental flag
on the departure row is `1`, not `0`, and the hourly table credits station
100 with one rental. -/
theorem c2_counterexample :
    (addFlags (sortPairs (_bike_station_pairs_virtual exC2frame).2)).get? 1 =
      some ({ dt := 36000, bike := 7, uid := 100 }, true) ∧
    rentCountAt (prepare_hourly_rentals exC2frame).2 36000 100 = 1 := by
  constructor
  · rfl
  · rfl

/-- C2 amended: when the next chronological record of the bike carries the
`-1` sentinel, a rental IS recorded at the departing genuine station: the
flag on the departure row is `1` and the station's hour bucket counts it.
The null test of the implemented condition (c) can only fail on the last
record of a bike, because the padding step has already replaced every
missing station with `-1` before the shift. -/
theorem c2_amended_rental_on_disappearance
    (l1 l2 : List PairRow) (r s : PairRow)
    (hbike : r.bike = s.bike) (hA : r.uid ≠ -1) (hS : s.uid = -1) :
    (addFlags (l1 ++ r :: s :: l2)).get? l1.length = some (r, true) ∧
    1 ≤ rentCountAt (rentalStage (l1 ++ r :: s :: l2)) (floorH r.dt) r.uid := by
  have hfind : ((s :: l2).find? fun x => decide (x.bike = r.bike)) = some s := by
    rw [List.find?_cons_of_pos]
    exact decide_eq_true hbike.symm
  have hflag : rentalFlag r.uid (some s.uid) = true := by
    simp [rentalFlag, hS, hA]
  have hget : (addFlags (l1 ++ r :: s :: l2)).get? l1.length = some (r, true) := by
    rw [addFlags_get? l1 r (s :: l2), hfind]
    simp [hflag]
  exact ⟨hget, rentCountAt_rentalStage (mem_of_get?_addFlags hget)⟩

/-- C2 amended witness: bike 7 at station 100, then the `-1` sentinel. -/
theorem c2_amended_witness :
    (addFlags [{ dt := 36000, bike := 7, uid := 100 },
               { dt := 36600, bike := 7, uid := -1 }]).get? 0 =
      some ({ dt := 36000, bike := 7, uid := 100 }, true) ∧
    1 ≤ rentCountAt
      (rentalStage [{ dt := 36000, bike := 7, uid := 100 },
                    { dt := 36600, bike := 7, uid := -1 }]) (floorH 36000) 100 :=
  c2_amended_rental_on_disappearance [] [] { dt := 36000, bike := 7, uid := 100 }
    { dt := 36600, bike := 7, uid := -1 } rfl (by decide) rfl

/-- C3 counterexample: on the spec's own two-snapshot scenario the output
of `prepare_hourly_rentals` contains a row for station 200 in that hour
with `rent_count = 0` — a zero count expressed by a present row, not by
absence. -/
theorem c3_counterexample :
    (prepare_hourly_rentals exC3frame).2 =
      [{ dt := 36000, uid := 100, rent_count := 1 },
       { dt := 36000, uid := 200, rent_count := 0 }] := by
  rfl

/-- C3 amended: the hourly table produced by `prepare_hourly_rentals`
contains a row for a `(station, hour)` pair exactly when at least one row
of the padded timeline carries that station and floors to that hour; a
pair with timeline rows but no qualifying transition is present with
`rent_count = 0`, and only pairs with no timeline row at all are absent. -/
theorem c3_amended_rows_iff_observed (f : Frame) (d : Nat) (u : Int) :
    (∃ c, ({ dt := d, uid := u, rent_count := c } : HourRow) ∈
        (prepare_hourly_rentals f).2) ↔
      ∃ p ∈ (_bike_station_pairs_virtual f).2, floorH p.dt = d ∧ p.uid = u := by
  rw [prepare_snd_eq, mem_rentalStage]
  unfold sortPairs
  simp only [List.mem_insertionSort]

/-- C4 counterexample: one snapshot where station 100 holds bike 7 and
station 200 is empty.  The product of distinct timestamps and distinct
positive bike identifiers has one element, but the padded timeline has two
rows: the virtual-identifier row survives the outer join. -/
theorem c4_counterexample :
    ((_bike_station_pairs_virtual exC4frame).2).length = 2 ∧
    (dtsOf (presencePairs exC4frame)).length *
      (posBikesOf (presencePairs exC4frame)).length = 1 := by
  constructor
  · rfl
  · rfl

/-- C4 amended: when no `(timestamp, positive bike)` pair is observed
twice, the padded output of the timeline builder has exactly
(# distinct timestamps) × (# distinct positive bike identifiers) rows
PLUS one row for every presence record with a non-positive (virtual)
identifier: the merge is an outer join, so virtual rows survive it. -/
theorem c4_amended_cardinality (f : Frame)
    (h : ∀ k ∈ padOf (presencePairs f), (matchesKey (presencePairs f) k).length ≤ 1) :
    ((_bike_station_pairs_virtual f).2).length =
      (dtsOf (presencePairs f)).length * (posBikesOf (presencePairs f)).length +
        ((presencePairs f).filter fun p => decide (p.bike ≤ 0)).length := by
  show (sortPairs (outerMerge (padOf (presencePairs f)) (presencePairs f))).length = _
  rw [sortPairs, List.length_insertionSort]
  unfold outerMerge
  rw [List.length_append]
  have h1 : ((padOf (presencePairs f)).flatMap fun k =>
      match matchesKey (presencePairs f) k with
      | [] => [{ dt := k.1, bike := k.2, uid := -1 }]
      | ms => ms).length = (padOf (presencePairs f)).length := by
    apply flatMap_length_of_singletons
    intro k hk
    have hlen := h k hk
    cases hm : matchesKey (presencePairs f) k with
    | nil => rfl
    | cons m ms =>
      cases ms with
      | nil => rfl
      | cons m2 ms2 =>
        rw [hm] at hlen
        simp at hlen
  rw [h1, padOf_length]
  congr 1
  have hfe : ((presencePairs f).filter fun r =>
      decide ((r.dt, r.bike) ∉ padOf (presencePairs f))) =
      (presencePairs f).filter fun p => decide (p.bike ≤ 0) := by
    apply List.filter_congr
    intro r hr
    rw [decide_eq_decide]
    constructor
    · intro hnm
      by_contra h0
      exact hnm ((pad_mem_iff_pos hr).mpr (by omega))
    · intro hle hm
      have := (pad_mem_iff_pos hr).mp hm
      omega
  rw [hfe]

/-- C4 amended witness: the single-snapshot input with one real bike and
one empty station; the padded output has 1 × 1 + 1 = 2 rows. -/
theorem c4_amended_witness :
    ((_bike_station_pairs_virtual exC4frame).2).length =
      (dtsOf (presencePairs exC4frame)).length *
        (posBikesOf (presencePairs exC4frame)).length +
        ((presencePairs exC4frame).filter fun p => decide (p.bike ≤ 0)).length :=
  c4_amended_cardinality exC4frame (by decide)

/-- C5 counterexample: on the input whose empty station sits at row
position 0, the synthesized virtual identifier is `-0 = 0`, which is not
strictly negative. -/
theorem c5_counterexample : ¬ ∀ v ∈ virtualIds exC5frame, v < 0 := by
  decide

/-- C5 amended: for every snapshot batch whose `bike_numbers` cells are in
list form, exactly one virtual identifier is synthesized per empty-list
row, every synthesized identifier is non-positive (it is minus the row
position, hence `0` for row 0 and strictly negative from row 1 on), the
identifiers of different rows are pairwise distinct, and none collides
with any real (strictly positive) identifier. -/
theorem c5_amended_virtual_ids (f : Frame)
    (h : ∀ r ∈ f.rows, isArrCell r.bike_numbers = true) :
    (virtualIds f).length = (f.rows.filter fun r => isEmptyArr r.bike_numbers).length ∧
    (∀ v ∈ virtualIds f, v ≤ 0) ∧
    (virtualIds f).Nodup ∧
    ∀ v ∈ virtualIds f, ∀ b : Int, 0 < b → v ≠ b := by
  have hids : virtualIds f = (emptyIdx 0 f.rows).map negIdx :=
    virtIdsOf_addVirtuals f.rows 0 h
  have hinj : Function.Injective negIdx := by
    intro a b hab
    unfold negIdx at hab
    omega
  have hle : ∀ v ∈ virtualIds f, v ≤ 0 := by
    intro v hv
    rw [hids] at hv
    rcases List.mem_map.mp hv with ⟨j, _, rfl⟩
    unfold negIdx
    omega
  refine ⟨?_, hle, ?_, ?_⟩
  · rw [hids, List.length_map, emptyIdx_length]
    have hfe : (f.rows.filter fun r => decide (lenB r.bike_numbers = 0)) =
        f.rows.filter fun r => isEmptyArr r.bike_numbers := by
      apply List.filter_congr
      intro r hr
      have hrc := h r hr
      cases hc : r.bike_numbers with
      | arr toks =>
        cases toks with
        | nil => simp [lenB, isEmptyArr, hc]
        | cons a t => simp [lenB, isEmptyArr, hc]
      | virt n => rw [hc] at hrc; simp [isArrCell] at hrc
    rw [hfe]
  · rw [hids]
    exact (emptyIdx_nodup f.rows 0).map hinj
  · intro v hv b hb
    have := hle v hv
    omega

/-- C5 amended witness: a batch with a non-empty station at row 0 and an
empty station at row 1. -/
theorem c5_amended_witness :
    (virtualIds exC5wframe).length =
      (exC5wframe.rows.filter fun r => isEmptyArr r.bike_numbers).length ∧
    (∀ v ∈ virtualIds exC5wframe, v ≤ 0) ∧
    (virtualIds exC5wframe).Nodup ∧
    ∀ v ∈ virtualIds exC5wframe, ∀ b : Int, 0 < b → v ≠ b :=
  c5_amended_virtual_ids exC5wframe (by decide)

/-- C10: on every input dataframe containing at least one station row with
an empty bike list, `prepare_hourly_rentals` mutates the caller's
dataframe in place: after the call the input object carries the added
`len_bikes_array` column, its rows are no longer the input rows, and every
empty-list row has its `bike_numbers` cell overwritten with the
synthesized virtual identifier of its row position. -/
theorem c10_inplace_mutation (f : Frame)
    (h : ∃ i r, f.rows.get? i = some r ∧ r.bike_numbers = .arr []) :
    (prepare_hourly_rentals f).1.hasLenBikes = true ∧
    (prepare_hourly_rentals f).1.rows ≠ f.rows ∧
    ∀ i r, f.rows.get? i = some r → r.bike_numbers = .arr [] →
      (prepare_hourly_rentals f).1.rows.get? i =
        some { r with bike_numbers := .virt (negIdx i) } := by
  have hthird : ∀ i r, f.rows.get? i = some r → r.bike_numbers = .arr [] →
      (prepare_hourly_rentals f).1.rows.get? i =
        some { r with bike_numbers := .virt (negIdx i) } := by
    intro i r hget hempty
    show (addVirtuals 0 f.rows).get? i = _
    rw [addVirtuals_get? f.rows 0 i, hget]
    have hlen : lenB r.bike_numbers = 0 := by rw [hempty]; rfl
    simp only [Option.map_some', if_pos hlen]
    have : ((0 + i : Nat) : Int) = (i : Int) := by omega
    rw [this]
    rfl
  refine ⟨rfl, ?_, hthird⟩
  intro heq
  obtain ⟨i, r, hget, hempty⟩ := h
  have h3 := hthird i r hget hempty
  rw [heq, hget] at h3
  have hbn : r.bike_numbers = BikesVal.virt (negIdx i) :=
    congrArg Row.bike_numbers (Option.some.inj h3)
  rw [hempty] at hbn
  exact BikesVal.noConfusion hbn

/-- C10 witness: the single-row frame with an empty bike list. -/
theorem c10_witness :
    (prepare_hourly_rentals exC10frame).1.hasLenBikes = true ∧
    (prepare_hourly_rentals exC10frame).1.rows ≠ exC10frame.rows ∧
    ∀ i r, exC10frame.rows.get? i = some r → r.bike_numbers = .arr [] →
      (prepare_hourly_rentals exC10frame).1.rows.get? i =
        some { r with bike_numbers := .virt (negIdx i) } :=
  c10_inplace_mutation exC10frame
    ⟨0, { uid := 300, dt := 7200, bike_numbers := .arr [] }, rfl, rfl⟩

end Helper

namespace Extractor

/-! Lemmas about `process_zip` and `process_month`. -/

theorem process_zip_rows (ord : List String → List String)
    (files : List (String × RawContent))
    (h : successDfs (files.map fun fc => inner_file_wrapper ord fc.1 fc.2) ≠ []) :
    zipLogRows (process_zip ord files) =
      logRowsOf (files.map fun fc => inner_file_wrapper ord fc.1 fc.2) ∧
    zipDataRows (process_zip ord files) =
      (successDfs (files.map fun fc => inner_file_wrapper ord fc.1 fc.2)).flatMap
        (·.rows) := by
  unfold process_zip zipLogRows zipDataRows
  cases hsd : successDfs (files.map fun fc => inner_file_wrapper ord fc.1 fc.2) with
  | nil => exact absurd hsd h
  | cons a t => exact ⟨rfl, rfl⟩

/-- C6 amended: in every archive in which at least one snapshot processes
successfully, every snapshot whose extraction or conversion fails is
recorded in the archive's log as a `(fname, stage, error)` row instead of
being raised, and every snapshot that processes successfully still
contributes all of its rows to the archive's output data; but in an
archive where every snapshot fails, `pd.concat` of the empty success list
raises `ValueError`, so the archive's worker raises instead of returning
its log. -/
theorem c6_amended_per_snapshot_isolation (ord : List String → List String)
    (files : List (String × RawContent)) :
    ((∃ fc ∈ files, (inner_file_wrapper ord fc.1 fc.2).isSuccess = true) →
      (∀ n c f s e, (n, c) ∈ files → inner_file_wrapper ord n c = .failure f s e →
        logRowOf f s e ∈ zipLogRows (process_zip ord files)) ∧
      (∀ n c m df, (n, c) ∈ files → inner_file_wrapper ord n c = .success m df →
        ∀ row ∈ df.rows, row ∈ zipDataRows (process_zip ord files))) ∧
    ((∀ fc ∈ files, (inner_file_wrapper ord fc.1 fc.2).isSuccess = false) →
      process_zip ord files = .error "ValueError: No objects to concatenate") := by
  constructor
  · intro hsucc
    have hne : successDfs (files.map fun fc => inner_file_wrapper ord fc.1 fc.2) ≠ [] := by
      obtain ⟨fc, hfc, hs⟩ := hsucc
      cases hr : inner_file_wrapper ord fc.1 fc.2 with
      | failure f s e => rw [hr] at hs; exact absurd hs (by simp [InnerResult.isSuccess])
      | success m df =>
        apply List.ne_nil_of_mem (a := df)
        unfold successDfs
        refine List.mem_filterMap.mpr ⟨.success m df, ?_, rfl⟩
        exact List.mem_map.mpr ⟨fc, hfc, hr⟩
    obtain ⟨hlog, hdata⟩ := process_zip_rows ord files hne
    constructor
    · intro n c f s e hmem hfail
      rw [hlog]
      unfold logRowsOf
      refine List.mem_filterMap.mpr ⟨inner_file_wrapper ord n c, ?_, ?_⟩
      · exact List.mem_map.mpr ⟨(n, c), hmem, rfl⟩
      · rw [hfail]
    · intro n c m df hmem hs row hrow
      rw [hdata]
      refine List.mem_flatMap.mpr ⟨df, ?_, hrow⟩
      unfold successDfs
      refine List.mem_filterMap.mpr ⟨inner_file_wrapper ord n c, ?_, ?_⟩
      · exact List.mem_map.mpr ⟨(n, c), hmem, rfl⟩
      · rw [hs]
  · intro hall
    have hnil : successDfs (files.map fun fc => inner_file_wrapper ord fc.1 fc.2) = [] := by
      unfold successDfs
      rw [List.filterMap_eq_nil_iff]
      intro r hr
      rcases List.mem_map.mp hr with ⟨fc, hfc, rfl⟩
      have hs := hall fc hfc
      cases hi : inner_file_wrapper ord fc.1 fc.2 with
      | failure f s e => rfl
      | success m df => rw [hi] at hs; exact absurd hs (by simp [InnerResult.isSuccess])
    unfold process_zip
    rw [hnil]
    rfl

theorem process_zip_ok_log {ord : List String → List String} {a : ZipArchive}
    {z : PFrame × PFrame} (h : process_zip ord a = .ok z) :
    z.2 = { cols := ["fname", "stage", "error"],
            rows := logRowsOf (a.map fun fc => inner_file_wrapper ord fc.1 fc.2) } := by
  unfold process_zip at h
  cases hc : concatFrames (successDfs (a.map fun fc => inner_file_wrapper ord fc.1 fc.2)) with
  | error e => rw [hc] at h; exact absurd h (by simp)
  | ok data =>
    rw [hc] at h
    injection h with h'
    rw [← h']

theorem runZips_ok_mem {ord : List String → List String} {archives : List ZipArchive}
    {zs : List (PFrame × PFrame)} (h : runZips ord archives = .ok zs) :
    ∀ z ∈ zs, ∃ a ∈ archives, process_zip ord a = .ok z := by
  induction archives generalizing zs with
  | nil =>
    unfold runZips at h
    injection h with h'
    subst h'
    intro z hz
    cases hz
  | cons a t ih =>
    unfold runZips at h
    cases hp : process_zip ord a with
    | error e => rw [hp] at h; exact absurd h (by simp)
    | ok z0 =>
      rw [hp] at h
      cases hr : runZips ord t with
      | error e => rw [hr] at h; exact absurd h (by simp)
      | ok zs0 =>
        rw [hr] at h
        injection h with h'
        subst h'
        intro z hz
        rcases List.mem_cons.mp hz with rfl | hz0
        · exact ⟨a, List.mem_cons_self a t, hp⟩
        · obtain ⟨a', ha', hpa'⟩ := ih hr z hz0
          exact ⟨a', List.mem_cons_of_mem a ha', hpa'⟩

theorem addCols_of_all_mem {acc cs : List String} (h : ∀ x ∈ cs, x ∈ acc) :
    addCols acc cs = acc :=
  Helper.foldl_uniq_all_mem cs acc h

theorem addCols_nil_of_nodup {cs : List String} (h : cs.Nodup) :
    addCols [] cs = cs := by
  unfold addCols
  rw [Helper.foldl_uniq_append cs [] h (by intro x _ hx; cases hx)]
  rfl

theorem colsUnion_const {C : List String} (hC : C.Nodup) (dfs : List PFrame)
    (hall : ∀ d ∈ dfs, d.cols = C) (hne : dfs ≠ []) : colsUnion dfs = C := by
  cases dfs with
  | nil => exact absurd rfl hne
  | cons d t =>
    unfold colsUnion
    rw [List.foldl_cons, hall d (List.mem_cons_self d t), addCols_nil_of_nodup hC]
    have hstep : ∀ (u : List PFrame), (∀ d' ∈ u, d'.cols = C) →
        u.foldl (fun a d' => addCols a d'.cols) C = C := by
      intro u
      induction u with
      | nil => intro _; rfl
      | cons d' u' ih2 =>
        intro hall'
        rw [List.foldl_cons, hall' d' (List.mem_cons_self d' u'),
          addCols_of_all_mem fun x hx => hx]
        exact ih2 fun x hx => hall' x (List.mem_cons_of_mem d' hx)
    exact hstep t fun x hx => hall x (List.mem_cons_of_mem d hx)

theorem logRowsOf_eq_nil {ord : List String → List String} {a : ZipArchive}
    (h : ∀ fc ∈ a, (inner_file_wrapper ord fc.1 fc.2).isSuccess = true) :
    logRowsOf (a.map fun fc => inner_file_wrapper ord fc.1 fc.2) = [] := by
  unfold logRowsOf
  rw [List.filterMap_eq_nil_iff]
  intro r hr
  rcases List.mem_map.mp hr with ⟨fc, hfc, rfl⟩
  have hs := h fc hfc
  cases hi : inner_file_wrapper ord fc.1 fc.2 with
  | failure f s e => rw [hi] at hs; exact absurd hs (by simp [InnerResult.isSuccess])
  | success m df => rfl

/-- C7: every completed monthly batch run returns both a data table and a
log table; the log table carries the fixed schema
`["fname", "stage", "error"]`, and when zero errors occurred in every
archive of the batch the log is the empty table under that schema — an
empty log, never an absent one. -/
theorem c7_month_log_schema (ord : List String → List String)
    (archives : List ZipArchive) (h : okE (process_month ord archives) = true) :
    monthLogCols (process_month ord archives) = ["fname", "stage", "error"] ∧
    ((∀ a ∈ archives, ∀ fc ∈ a, (inner_file_wrapper ord fc.1 fc.2).isSuccess = true) →
      monthLogRows (process_month ord archives) = []) := by
  cases hz : runZips ord archives with
  | error e =>
    exfalso
    unfold process_month at h
    rw [hz] at h
    simp [okE] at h
  | ok zs =>
    cases hcd : concatFrames (zs.map (·.1)) with
    | error e =>
      exfalso
      unfold process_month at h
      rw [hz] at h
      dsimp only at h
      rw [hcd] at h
      simp [okE] at h
    | ok data =>
      have hzs : zs ≠ [] := by
        intro hnil
        rw [hnil] at hcd
        exact absurd hcd (by simp [concatFrames])
      cases hcl : concatFrames (zs.map (·.2)) with
      | error e =>
        exfalso
        cases hm : zs.map (·.2) with
        | nil => exact hzs (List.map_eq_nil_iff.mp hm)
        | cons b bs => rw [hm] at hcl; exact absurd hcl (by simp [concatFrames])
      | ok log =>
        have hpm : process_month ord archives = Except.ok (data, log) := by
          unfold process_month
          rw [hz]
          dsimp only
          rw [hcd]
          dsimp only
          rw [hcl]
        have hlog : log = { cols := colsUnion (zs.map (·.2)),
                            rows := (zs.map (·.2)).flatMap (·.rows) } := by
          cases hm : zs.map (·.2) with
          | nil => exact absurd (List.map_eq_nil_iff.mp hm) hzs
          | cons b bs =>
            rw [hm] at hcl
            unfold concatFrames at hcl
            injection hcl with h'
            rw [← h', ← hm]
        rw [hpm]
        constructor
        · show log.cols = _
          rw [hlog]
          refine colsUnion_const (by decide) _ ?_ ?_
          · intro d hd
            rcases List.mem_map.mp hd with ⟨z, hz2, rfl⟩
            obtain ⟨a, _, hpa⟩ := runZips_ok_mem hz z hz2
            rw [process_zip_ok_log hpa]
          · intro hm
            exact hzs (List.map_eq_nil_iff.mp hm)
        · intro hall
          show log.rows = []
          rw [hlog]
          show (zs.map (·.2)).flatMap (·.rows) = []
          rw [List.flatMap_eq_nil_iff]
          intro d hd
          rcases List.mem_map.mp hd with ⟨z, hz2, rfl⟩
          obtain ⟨a, ha, hpa⟩ := runZips_ok_mem hz z hz2
          rw [process_zip_ok_log hpa]
          exact logRowsOf_eq_nil fun fc hfc => hall a ha fc hfc

/-- C7 witness: a one-archive month with zero errors; the written log has
the fixed schema and no rows. -/
theorem c7_witness :
    monthLogCols (process_month idOrd exC7arch) = ["fname", "stage", "error"] ∧
    monthLogRows (process_month idOrd exC7arch) = [] :=
  ⟨(c7_month_log_schema idOrd exC7arch rfl).1,
   (c7_month_log_schema idOrd exC7arch rfl).2 (by decide)⟩

/-! Lemmas comparing two runs of the pipeline that differ only in the
set-iteration order. -/
theorem forall₂_map_same {α β : Type} (R : β → β → Prop) (f g : α → β) (l : List α)
    (h : ∀ x ∈ l, R (f x) (g x)) : List.Forall₂ R (l.map f) (l.map g) := by
  induction l with
  | nil => exact List.Forall₂.nil
  | cons a t ih =>
    exact List.Forall₂.cons (h a (List.mem_cons_self a t))
      (ih fun x hx => h x (List.mem_cons_of_mem a hx))

theorem rowsPerm_append {r1 r2 m1 m2 : List (List (String × String))}
    (h1 : RowsPerm r1 r2) (h2 : RowsPerm m1 m2) : RowsPerm (r1 ++ m1) (r2 ++ m2) := by
  unfold RowsPerm at *
  induction h1 with
  | nil => exact h2
  | cons ha _ ih => exact List.Forall₂.cons ha ih

theorem rowsPerm_map_append (x : String × String)
    {r1 r2 : List (List (String × String))} (h : RowsPerm r1 r2) :
    RowsPerm (r1.map (· ++ [x])) (r2.map (· ++ [x])) := by
  unfold RowsPerm at *
  induction h with
  | nil => exact List.Forall₂.nil
  | cons ha _ ih => exact List.Forall₂.cons (ha.append_right [x]) ih

theorem normalize_rel (o1 o2 : List String → List String)
    (ho : ∀ l, (o1 l).Perm (o2 l)) (df : PFrame) :
    FrameRel (normalize_column_list o1 df) (normalize_column_list o2 df) := by
  have h1 : normalize_column_list o1 df =
      { cols := o1 (interCols df),
        rows := df.rows.map fun row =>
          (o1 (interCols df)).map fun c => (c, cellOf row c) } := rfl
  have h2 : normalize_column_list o2 df =
      { cols := o2 (interCols df),
        rows := df.rows.map fun row =>
          (o2 (interCols df)).map fun c => (c, cellOf row c) } := rfl
  rw [h1, h2]
  refine ⟨ho _, ?_⟩
  unfold RowsPerm
  apply forall₂_map_same
  intro row _
  exact (ho (interCols df)).map fun c => (c, cellOf row c)

theorem addDtCol_rel (dt : String) {d1 d2 : PFrame} (h : FrameRel d1 d2) :
    FrameRel (addDtCol dt d1) (addDtCol dt d2) := by
  obtain ⟨hc, hr⟩ := h
  exact ⟨hc.append_right ["dt"], rowsPerm_map_append ("dt", dt) hr⟩

theorem inner_rel (o1 o2 : List String → List String)
    (ho : ∀ l, (o1 l).Perm (o2 l)) (n : String) (c : RawContent) :
    InnerRel (inner_file_wrapper o1 n c) (inner_file_wrapper o2 n c) := by
  cases c with
  | noDb => exact ⟨rfl, rfl, rfl⟩
  | db payload =>
    unfold inner_file_wrapper
    dsimp only [extract_json]
    cases hp : process_json payload with
    | error e => exact ⟨rfl, rfl, rfl⟩
    | ok df => exact ⟨rfl, addDtCol_rel _ (normalize_rel o1 o2 ho df)⟩

theorem logRowsOf_rel {rs1 rs2 : List InnerResult}
    (h : List.Forall₂ InnerRel rs1 rs2) : logRowsOf rs1 = logRowsOf rs2 := by
  induction h with
  | nil => rfl
  | @cons a b t1 t2 hab _ ih =>
    cases a with
    | failure f s e =>
      cases b with
      | failure f' s' e' =>
        obtain ⟨h1, h2, h3⟩ := hab
        subst h1; subst h2; subst h3
        show logRowOf f s e :: logRowsOf t1 = logRowOf f s e :: logRowsOf t2
        rw [ih]
      | success m df => exact (hab : False).elim
    | success m df =>
      cases b with
      | failure _ _ _ => exact (hab : False).elim
      | success m' df' =>
        show logRowsOf t1 = logRowsOf t2
        exact ih

theorem successDfs_rel {rs1 rs2 : List InnerResult}
    (h : List.Forall₂ InnerRel rs1 rs2) :
    List.Forall₂ FrameRel (successDfs rs1) (successDfs rs2) := by
  induction h with
  | nil => exact List.Forall₂.nil
  | @cons a b t1 t2 hab _ ih =>
    cases a with
    | failure f s e =>
      cases b with
      | failure f' s' e' =>
        show List.Forall₂ FrameRel (successDfs t1) (successDfs t2)
        exact ih
      | success m df => exact (hab : False).elim
    | success m df =>
      cases b with
      | failure _ _ _ => exact (hab : False).elim
      | success m' df' => exact List.Forall₂.cons hab.2 ih

theorem mem_addCols {acc cs : List String} {x : String} :
    x ∈ addCols acc cs ↔ x ∈ acc ∨ x ∈ cs :=
  Helper.mem_foldl_uniq cs acc x

theorem mem_colsUnion {dfs : List PFrame} {x : String} :
    x ∈ colsUnion dfs ↔ ∃ d ∈ dfs, x ∈ d.cols := by
  have haux : ∀ (u : List PFrame) (acc : List String),
      x ∈ u.foldl (fun a d => addCols a d.cols) acc ↔ x ∈ acc ∨ ∃ d ∈ u, x ∈ d.cols := by
    intro u
    induction u with
    | nil => intro acc; simp
    | cons d t ih =>
      intro acc
      rw [List.foldl_cons, ih, mem_addCols, List.exists_mem_cons_iff]
      tauto
  rw [colsUnion, haux]
  simp

theorem nodup_colsUnion (dfs : List PFrame) : (colsUnion dfs).Nodup := by
  have haux : ∀ (u : List PFrame) (acc : List String), acc.Nodup →
      (u.foldl (fun a d => addCols a d.cols) acc).Nodup := by
    intro u
    induction u with
    | nil => intro acc h; exact h
    | cons d t ih =>
      intro acc h
      exact ih _ (Helper.nodup_foldl_uniq d.cols acc h)
  exact haux dfs [] List.nodup_nil

theorem colsUnion_perm {dfs1 dfs2 : List PFrame}
    (h : List.Forall₂ FrameRel dfs1 dfs2) :
    (colsUnion dfs1).Perm (colsUnion dfs2) := by
  apply (List.perm_ext_iff_of_nodup (nodup_colsUnion _) (nodup_colsUnion _)).mpr
  intro x
  rw [mem_colsUnion, mem_colsUnion]
  induction h with
  | nil => simp
  | @cons a b t1 t2 hab _ ih =>
    rw [List.exists_mem_cons_iff, List.exists_mem_cons_iff, hab.1.mem_iff, ih]

theorem rowsPerm_flatMap {dfs1 dfs2 : List PFrame}
    (h : List.Forall₂ FrameRel dfs1 dfs2) :
    RowsPerm (dfs1.flatMap (·.rows)) (dfs2.flatMap (·.rows)) := by
  induction h with
  | nil => exact List.Forall₂.nil
  | cons hab _ ih => exact rowsPerm_append hab.2 ih

theorem concat_rel {dfs1 dfs2 : List PFrame}
    (h : List.Forall₂ FrameRel dfs1 dfs2) :
    ExcRel FrameRel (concatFrames dfs1) (concatFrames dfs2) := by
  cases h with
  | nil => exact rfl
  | @cons a b t1 t2 hab ht =>
    exact ⟨colsUnion_perm (List.Forall₂.cons hab ht),
           rowsPerm_flatMap (List.Forall₂.cons hab ht)⟩

theorem process_zip_rel (o1 o2 : List String → List String)
    (ho : ∀ l, (o1 l).Perm (o2 l)) (files : List (String × RawContent)) :
    ExcRel PairRel (process_zip o1 files) (process_zip o2 files) := by
  have hres : List.Forall₂ InnerRel
      (files.map fun fc => inner_file_wrapper o1 fc.1 fc.2)
      (files.map fun fc => inner_file_wrapper o2 fc.1 fc.2) :=
    forall₂_map_same InnerRel _ _ files fun fc _ => inner_rel o1 o2 ho fc.1 fc.2
  have hlogs := logRowsOf_rel hres
  have hcr := concat_rel (successDfs_rel hres)
  unfold process_zip
  cases hc1 : concatFrames (successDfs
      (files.map fun fc => inner_file_wrapper o1 fc.1 fc.2)) with
  | error e1 =>
    cases hc2 : concatFrames (successDfs
        (files.map fun fc => inner_file_wrapper o2 fc.1 fc.2)) with
    | error e2 => rw [hc1, hc2] at hcr; exact hcr
    | ok d2 => rw [hc1, hc2] at hcr; exact (hcr : False).elim
  | ok d1 =>
    cases hc2 : concatFrames (successDfs
        (files.map fun fc => inner_file_wrapper o2 fc.1 fc.2)) with
    | error e2 => rw [hc1, hc2] at hcr; exact (hcr : False).elim
    | ok d2 =>
      rw [hc1, hc2] at hcr
      refine ⟨?_, hcr⟩
      show PFrame.mk ["fname", "stage", "error"] _ = PFrame.mk ["fname", "stage", "error"] _
      rw [hlogs]

theorem runZips_rel (o1 o2 : List String → List String)
    (ho : ∀ l, (o1 l).Perm (o2 l)) (archives : List ZipArchive) :
    ExcRel (List.Forall₂ PairRel) (runZips o1 archives) (runZips o2 archives) := by
  induction archives with
  | nil => exact List.Forall₂.nil
  | cons a t ih =>
    have hz := process_zip_rel o1 o2 ho a
    unfold runZips
    cases h1 : process_zip o1 a with
    | error e1 =>
      cases h2 : process_zip o2 a with
      | error e2 => rw [h1, h2] at hz; exact hz
      | ok z2 => rw [h1, h2] at hz; exact (hz : False).elim
    | ok z1 =>
      cases h2 : process_zip o2 a with
      | error e2 => rw [h1, h2] at hz; exact (hz : False).elim
      | ok z2 =>
        rw [h1, h2] at hz
        cases hr1 : runZips o1 t with
        | error e1 =>
          cases hr2 : runZips o2 t with
          | error e2 => rw [hr1, hr2] at ih; exact ih
          | ok zs2 => rw [hr1, hr2] at ih; exact (ih : False).elim
        | ok zs1 =>
          cases hr2 : runZips o2 t with
          | error e2 => rw [hr1, hr2] at ih; exact (ih : False).elim
          | ok zs2 =>
            rw [hr1, hr2] at ih
            exact List.Forall₂.cons hz ih

theorem forall₂_pairrel_fst {zs1 zs2 : List (PFrame × PFrame)}
    (h : List.Forall₂ PairRel zs1 zs2) :
    List.Forall₂ FrameRel (zs1.map (·.1)) (zs2.map (·.1)) := by
  induction h with
  | nil => exact List.Forall₂.nil
  | cons hab _ ih => exact List.Forall₂.cons hab.2 ih

theorem forall₂_pairrel_snd_eq {zs1 zs2 : List (PFrame × PFrame)}
    (h : List.Forall₂ PairRel zs1 zs2) : zs1.map (·.2) = zs2.map (·.2) := by
  induction h with
  | nil => rfl
  | @cons a b t1 t2 hab _ ih =>
    show a.2 :: t1.map (·.2) = b.2 :: t2.map (·.2)
    rw [hab.1, ih]

/-- C8 counterexample: the same one-archive month processed under two
legitimate set-iteration orders (the second conjunct checks that the two
orders enumerate the same intersection set) yields different output
tables: the column order of the data file differs between the runs, so two
independent runs of the pipeline are not byte-identical. -/
theorem c8_counterexample :
    monthDataCols (process_month idOrd exC8arch) = ["uid", "bikes", "dt"] ∧
    monthDataCols (process_month revOrd exC8arch) = ["bikes", "uid", "dt"] ∧
    monthDataCols (process_month idOrd exC8arch) ≠
      monthDataCols (process_month revOrd exC8arch) ∧
    (idOrd ["uid", "bikes"]).Perm (revOrd ["uid", "bikes"]) := by
  refine ⟨by decide, by decide, by decide, ?_⟩
  exact (List.reverse_perm _).symm

/-- C8 amended: the pipeline is deterministic up to the set-iteration
order of `normalize_column_list`: two runs whose order oracles enumerate
every set the same way up to permutation either both fail with the same
error or both succeed with identical log tables and with data tables that
agree up to column order (columns are permutations of each other and each
data row holds the same cells up to order).  In particular two runs within
a single process (one fixed hash seed, hence one oracle) are identical. -/
theorem c8_amended_deterministic_up_to_column_order
    (o1 o2 : List String → List String) (ho : ∀ l, (o1 l).Perm (o2 l))
    (archives : List ZipArchive) :
    MonthRel (process_month o1 archives) (process_month o2 archives) := by
  have hrz := runZips_rel o1 o2 ho archives
  unfold MonthRel process_month
  cases h1 : runZips o1 archives with
  | error e1 =>
    cases h2 : runZips o2 archives with
    | error e2 => rw [h1, h2] at hrz; exact hrz
    | ok zs2 => rw [h1, h2] at hrz; exact (hrz : False).elim
  | ok zs1 =>
    cases h2 : runZips o2 archives with
    | error e2 => rw [h1, h2] at hrz; exact (hrz : False).elim
    | ok zs2 =>
      rw [h1, h2] at hrz
      dsimp only
      have hdat := concat_rel (forall₂_pairrel_fst hrz)
      have hlogeq : zs1.map (·.2) = zs2.map (·.2) := forall₂_pairrel_snd_eq hrz
      rw [hlogeq]
      cases hd1 : concatFrames (zs1.map (·.1)) with
      | error e1 =>
        cases hd2 : concatFrames (zs2.map (·.1)) with
        | error e2 => rw [hd1, hd2] at hdat; exact hdat
        | ok d2 => rw [hd1, hd2] at hdat; exact (hdat : False).elim
      | ok d1 =>
        cases hd2 : concatFrames (zs2.map (·.1)) with
        | error e2 => rw [hd1, hd2] at hdat; exact (hdat : False).elim
        | ok d2 =>
          rw [hd1, hd2] at hdat
          dsimp only
          cases hl2 : concatFrames (zs2.map (·.2)) with
          | error e2 => exact rfl
          | ok log => exact ⟨rfl, hdat⟩

/-- C8 amended witness: the identity order against the reversed order on
the one-archive month. -/
theorem c8_amended_witness :
    MonthRel (process_month idOrd exC8arch) (process_month revOrd exC8arch) :=
  c8_amended_deterministic_up_to_column_order idOrd revOrd
    (fun l => (List.reverse_perm l).symm) exC8arch

/-- C6 counterexample: an archive whose only snapshot fails to extract.
The failure is not recorded: `pd.concat` of the empty success list raises
`ValueError`, the archive's log frame is discarded (no log rows survive),
and at the month level the exception aborts the batch, losing the healthy
sibling archive's records as well. -/
theorem c6_counterexample :
    process_zip idOrd exC6badArch = .error "ValueError: No objects to concatenate" ∧
    zipLogRows (process_zip idOrd exC6badArch) = [] ∧
    process_month idOrd exC6month = .error "ValueError: No objects to concatenate" := by
  refine ⟨rfl, rfl, rfl⟩

/-- C6 amended witness: on the mixed archive the failure is logged and the
good snapshot's row is in the output; on the all-failure archive
`process_zip` raises the `ValueError` of the empty concatenation. -/
theorem c6_witness :
    (logRowOf "20190822_101010.html" "extract_json" "IndexError: list index out of range" ∈
      zipLogRows (process_zip idOrd exC6files) ∧
    [("uid", "100"), ("bikes", "3"), ("dt", "2019-08-22 10:20:10")] ∈
      zipDataRows (process_zip idOrd exC6files)) ∧
    process_zip idOrd exC6badArch = .error "ValueError: No objects to concatenate" := by
  have h := (c6_amended_per_snapshot_isolation idOrd exC6files).1
    ⟨("20190822_102010.html", exGoodContent), by decide, rfl⟩
  refine ⟨⟨h.1 "20190822_101010.html" .noDb _ _ _ (by decide) rfl, ?_⟩, ?_⟩
  · exact h.2 "20190822_102010.html" exGoodContent "20190822_102010.html" _
      (by decide) rfl _ (by decide)
  · exact (c6_amended_per_snapshot_isolation idOrd exC6badArch).2 (by decide)

end Extractor

namespace Avail

/-- C9 evidence (code bug): on a month holding a single station row the
recompute path of `get_hourly_available_bikes` raises the NameError of the
missing numpy import, and on every input whatsoever the recompute path
raises some exception instead of returning the `(station, hour,
bike_racks, mean bikes)` table the specification describes. -/
theorem c9_recompute_path_always_raises :
    get_hourly_available_bikes
      [[{ uid := 100, dt := 36000, bikes := 3, bike_racks := 10 }]] =
      .error "NameError: name np is not defined" ∧
    ∀ files, ∃ e, get_hourly_available_bikes files = Except.error e := by
  refine ⟨rfl, ?_⟩
  intro files
  unfold get_hourly_available_bikes
  cases haux : aggAll files with
  | error e => exact ⟨e, rfl⟩
  | ok ts => exact ⟨"AttributeError: module pandas has no attribute cponcat", rfl⟩


end Avail

end Veturilo
